import Mathlib

/-!
Shallow embedding of `scripts/generate_feeds.py` (PBH-BTN/peerbanhelper-torrent-updates).

The Python module processes GitHub release records (`process_releases`), converts
markdown bodies to HTML (`convert_markdown_to_html`, delegating to the external
`markdown` library), and renders four RSS 2.0 feed variants
(`generate_rss_feed`).  JSON records are dicts; we model key presence with
`Option` fields, a raised Python exception with `Except.error`, and the external
markdown collaborator as a function parameter `render`.  File I/O (reading
`releases.json`, writing the feed files) is outside the embedded core, per the
spec's scope: `process_releases` here takes the already-decoded record list.
-/

/-- Python `str.replace(pat, rep)`: leftmost, non-overlapping replacement of
every occurrence.  Fuel-indexed structural recursion (fuel = input length
suffices, since each step consumes at least one character when `pat ≠ []`). -/
def replaceFuel (pat rep : List Char) : Nat → List Char → List Char
  | 0, l => l
  | _ + 1, [] => []
  | fuel + 1, c :: cs =>
    if pat ≠ [] ∧ pat.isPrefixOf (c :: cs) then
      rep ++ replaceFuel pat rep fuel ((c :: cs).drop pat.length)
    else
      c :: replaceFuel pat rep fuel cs

/-- Python `s.replace(pat, rep)` on strings. -/
def pyReplace (s pat rep : String) : String :=
  ⟨replaceFuel pat.data rep.data s.data.length s.data⟩

/-- `xml.sax.saxutils.escape`: replaces `&` first, then `<`, then `>`
(exactly the order the CPython implementation uses). -/
def saxEscape (s : String) : String :=
  pyReplace (pyReplace (pyReplace s "&" "&amp;") "<" "&lt;") ">" "&gt;"

/-- `xml.dom.minidom._write_data`, the escaping the final `toprettyxml`
serialization pass applies to character data: `&`, then `<`, then `"`,
then `>`. -/
def minidomWriteData (s : String) : String :=
  pyReplace (pyReplace (pyReplace (pyReplace s "&" "&amp;") "<" "&lt;") "\"" "&quot;") ">" "&gt;"

/-- An element of a release's `assets` array: `{name, size}`. -/
structure Asset where
  name : String
  size : Nat
deriving DecidableEq, Repr

/-- A raw GitHub release record (a JSON dict).  `none` on an `Option` field
models the key being absent from the dict; accessing an absent required key
raises `KeyError` in Python.  `draft` and `prerelease` model
`release.get(k, False)`. -/
structure RawRelease where
  name : Option String
  tag_name : Option String
  body : Option String
  published_at : Option String
  prerelease : Bool
  draft : Bool
  html_url : Option String
  assets : Option (List Asset)
deriving DecidableEq, Repr

/-- The dict built for each valid release inside `process_releases`. -/
structure NormalizedEntry where
  title : String
  description : String
  pub_date : String
  is_prerelease : Bool
  html_url : String
  size : Nat
  torrent_url : String
  mirror_url : String
deriving DecidableEq, Repr

/-- `convert_markdown_to_html`.  The `markdown.markdown(...)` call is the
external collaborator, passed in as `render` (returning `Except` to model a
raised exception).  Mirrors the source: falsy text returns `""`; the text is
preprocessed with `text.replace('  \n', '<br/>\n')` (rebinding `text`); on
success the HTML is wrapped in a styled div; on an exception the function
returns `escape(text)` — note `text` is the rebound, preprocessed text. -/
def convert_markdown_to_html (render : String → Except String String) (text : String) : String :=
  if text = "" then ""
  else
    let text := pyReplace text "  \n" "<br/>\n"
    match render text with
    | .ok html => "<div style=\"white-space: pre-wrap; font-family: sans-serif\">" ++ html ++ "</div>"
    | .error _ => saxEscape text

/-- The generator expression
`next((a for a in release['assets'] if a['name'] == 'peerbanhelper.torrent'), None)`:
first asset with the exact name. -/
def findTorrentAsset (l : List Asset) : Option Asset :=
  l.find? (fun a => a.name == "peerbanhelper.torrent")

/-- One iteration of the `for release in releases` loop body of
`process_releases`: `.ok none` models `continue` (draft, or no torrent asset),
`.error` models an uncaught `KeyError` (missing `assets` / `tag_name`), and
`.ok (some e)` the appended processed dict.  Field accesses follow the source:
the draft check first, then `release['assets']`, then — for surviving
records — `release['tag_name']` (evaluated eagerly as the `.get('name', ...)`
default argument, and needed for the URL templates). -/
def processOne (render : String → Except String String) (r : RawRelease) :
    Except String (Option NormalizedEntry) :=
  if r.draft then .ok none
  else
    match r.assets with
    | none => .error "KeyError: assets"
    | some assets =>
      match findTorrentAsset assets with
      | none => .ok none
      | some a =>
        match r.tag_name with
        | none => .error "KeyError: tag_name"
        | some tag =>
          .ok (some {
            title := r.name.getD tag,
            description := convert_markdown_to_html render (r.body.getD ""),
            pub_date := r.published_at.getD "",
            is_prerelease := r.prerelease,
            html_url := r.html_url.getD "",
            size := a.size,
            torrent_url :=
              "https://github.com/PBH-BTN/PeerBanHelper/releases/download/" ++ tag
                ++ "/peerbanhelper.torrent",
            mirror_url :=
              "https://ghfast.top/https://github.com/PBH-BTN/PeerBanHelper/releases/download/"
                ++ tag ++ "/peerbanhelper.torrent" })

/-- The whole `for release in releases` loop: builds `valid_releases` in input
order; the first raised exception aborts the loop (and the function). -/
def processLoop (render : String → Except String String) :
    List RawRelease → Except String (List NormalizedEntry)
  | [] => .ok []
  | r :: rest =>
    match processOne render r with
    | .error e => .error e
    | .ok none => processLoop render rest
    | .ok (some e) =>
      match processLoop render rest with
      | .error err => .error err
      | .ok es => .ok (e :: es)

/-- A parsed `datetime` value (UTC). -/
structure PyDateTime where
  year : Nat
  month : Nat
  day : Nat
  hour : Nat
  minute : Nat
  second : Nat
deriving DecidableEq, Repr

/-- Leap year rule used by `datetime`. -/
def isLeapYear (y : Nat) : Bool :=
  (y % 4 == 0 && y % 100 != 0) || y % 400 == 0

/-- Days in a month of a given year. -/
def daysInMonth (y m : Nat) : Nat :=
  if m == 2 then (if isLeapYear y then 29 else 28)
  else if m == 4 || m == 6 || m == 9 || m == 11 then 30
  else 31

/-- Numeric value of a decimal digit character, `none` otherwise. -/
def digitVal (c : Char) : Option Nat :=
  if c.isDigit then some (c.toNat - 48) else none

/-- Consume two decimal digits, returning their value and the rest. -/
def parse2 (l : List Char) : Option (Nat × List Char) :=
  match l with
  | c1 :: c2 :: rest => do
    let a ← digitVal c1
    let b ← digitVal c2
    some (a * 10 + b, rest)
  | _ => none

/-- Consume one expected literal character. -/
def expectChar (c : Char) (l : List Char) : Option (List Char) :=
  match l with
  | d :: rest => if d = c then some rest else none
  | _ => none

/-- Consume one expected separator character followed by two digits. -/
def parse2Sep (c : Char) (l : List Char) : Option (Nat × List Char) :=
  (expectChar c l).bind fun l1 => parse2 l1

/-- Consume `YYYY-MM-DD`, returning year, month, day, rest. -/
def parseYMD (l : List Char) : Option (Nat × Nat × Nat × List Char) :=
  (parse2 l).bind fun p1 =>
  (parse2 p1.2).bind fun p2 =>
  (parse2Sep '-' p2.2).bind fun p3 =>
  (parse2Sep '-' p3.2).bind fun p4 =>
  some (p1.1 * 100 + p2.1, p3.1, p4.1, p4.2)

/-- Consume `THH:MM:SSZ`, returning hour, minute, second, rest. -/
def parseHMS (l : List Char) : Option (Nat × Nat × Nat × List Char) :=
  (parse2Sep 'T' l).bind fun p5 =>
  (parse2Sep ':' p5.2).bind fun p6 =>
  (parse2Sep ':' p6.2).bind fun p7 =>
  (expectChar 'Z' p7.2).bind fun l6 =>
  some (p5.1, p6.1, p7.1, l6)

/-- Range validation performed by the `datetime` constructor: `MINYEAR ≤ year`,
month, calendar-valid day, and time fields in range; the entire input must
have been consumed. -/
def mkValidDateTime (year month day hour minute second : Nat) (rest : List Char) :
    Option PyDateTime :=
  if rest = [] ∧ 1 ≤ year ∧ 1 ≤ month ∧ month ≤ 12 ∧ 1 ≤ day
      ∧ day ≤ daysInMonth year month ∧ hour ≤ 23 ∧ minute ≤ 59 ∧ second ≤ 59 then
    some ⟨year, month, day, hour, minute, second⟩
  else none

/-- Parse of an ISO-8601 UTC timestamp of the canonical GitHub shape
`YYYY-MM-DDTHH:MM:SSZ`, with `datetime` range validation.  This models both
date parses of the source on that shape: the sort key
`datetime.fromisoformat(x['pub_date'].replace('Z', '+00:00'))` and the
renderer's `datetime.strptime(entry['pub_date'], '%Y-%m-%dT%H:%M:%SZ')`
succeed on exactly these strings for canonical zero-padded input. -/
def parseIsoZ (s : String) : Option PyDateTime :=
  (parseYMD s.data).bind fun d =>
  (parseHMS d.2.2.2).bind fun t =>
  mkValidDateTime d.1 d.2.1 d.2.2.1 t.1 t.2.1 t.2.2.1 t.2.2.2

/-- Encoding of a datetime as a single `Nat`, strictly monotone in the
lexicographic field order (every field is `< 100`), so `Nat` order on keys is
exactly `datetime` order. -/
def dtKey (dt : PyDateTime) : Nat :=
  ((((dt.year * 100 + dt.month) * 100 + dt.day) * 100 + dt.hour) * 100 + dt.minute) * 100
    + dt.second

/-- The comparison key of the `valid_releases.sort(key=..., reverse=True)`
call, as a `Nat` (`0` for an unparseable date — `process_releases` only ever
sorts lists on which every date parses, raising otherwise). -/
def keyD (e : NormalizedEntry) : Nat :=
  match parseIsoZ e.pub_date with
  | some dt => dtKey dt
  | none => 0

/-- Insertion step of a stable descending sort on `keyD`: the new element goes
in front of the first element whose key is `≤` its own, so it lands after all
strictly-greater keys and before all equal keys of later input elements. -/
def insertDesc (a : NormalizedEntry) : List NormalizedEntry → List NormalizedEntry
  | [] => [a]
  | b :: bs => if keyD b ≤ keyD a then a :: b :: bs else b :: insertDesc a bs

/-- Stable descending sort on `keyD`.  Python's `list.sort` with
`reverse=True` is a stable sort by descending key; any stable sort computes
the same output list, so insertion sort is a faithful model. -/
def sortDesc : List NormalizedEntry → List NormalizedEntry
  | [] => []
  | a :: l => insertDesc a (sortDesc l)

/-- `process_releases` on the decoded record list (reading and decoding
`releases.json` is the I/O wrapper outside the core; its `except` branches
return `[]` before this code runs).  Mirrors the source: run the loop, then
`valid_releases.sort(key=..., reverse=True)` — which evaluates the key of
every element and raises `ValueError` on the first unparseable date — and
finally truncate with `[:max_entries]`. -/
def process_releases (render : String → Except String String)
    (releases : List RawRelease) (max_entries : Nat) :
    Except String (List NormalizedEntry) :=
  match processLoop render releases with
  | .error e => .error e
  | .ok valid =>
    if valid.all (fun e => (parseIsoZ e.pub_date).isSome) then
      .ok ((sortDesc valid).take max_entries)
    else .error "ValueError: Invalid isoformat string"

/-- Day-count arithmetic for `strftime('%a')`: days in the proleptic Gregorian
calendar strictly before January 1 of year `y`. -/
def daysBeforeYear (y : Nat) : Nat :=
  365 * (y - 1) + (y - 1) / 4 - (y - 1) / 100 + (y - 1) / 400

/-- Days of year `y` strictly before the first day of month `m`. -/
def daysBeforeMonth (y m : Nat) : Nat :=
  (List.range (m - 1)).foldl (fun acc i => acc + daysInMonth y (i + 1)) 0

/-- Rata-die ordinal of a date (0001-01-01 has ordinal 1), as `datetime.toordinal`. -/
def rataDie (dt : PyDateTime) : Nat :=
  daysBeforeYear dt.year + daysBeforeMonth dt.year dt.month + dt.day

/-- C-locale `%a` names, indexed by `rataDie % 7` (ordinal 1 = Monday). -/
def weekdayNames : List String :=
  ["Sun", "Mon", "Tue", "Wed", "Thu", "Fri", "Sat"]

/-- C-locale `%b` names. -/
def monthNames : List String :=
  ["Jan", "Feb", "Mar", "Apr", "May", "Jun", "Jul", "Aug", "Sep", "Oct", "Nov", "Dec"]

/-- Two-digit zero padding, as `%d`, `%H`, `%M`, `%S`. -/
def pad2 (n : Nat) : String :=
  if n < 10 then "0" ++ Nat.repr n else Nat.repr n

/-- `strftime('%a, %d %b %Y %H:%M:%S GMT')` on a parsed datetime. -/
def formatRfc822 (dt : PyDateTime) : String :=
  weekdayNames.getD (rataDie dt % 7) "" ++ ", " ++ pad2 dt.day ++ " "
    ++ monthNames.getD (dt.month - 1) "" ++ " " ++ Nat.repr dt.year ++ " "
    ++ pad2 dt.hour ++ ":" ++ pad2 dt.minute ++ ":" ++ pad2 dt.second ++ " GMT"

/-- The `enclosure` element's three attributes. -/
structure Enclosure where
  url : String
  length : String
  mimeType : String
deriving DecidableEq, Repr

/-- One `item` element as built by the loop body of `generate_rss_feed`.  The
`title` and `description` fields hold the strings stored as the elements'
`.text` (the source stores `escape(entry['title'])` / `escape(entry['description'])`);
the XML serializer escapes them once more on output (see
`serializedTitleContent`).  The source creates exactly one `enclosure`
SubElement per item, modeled by the single `enclosure` field. -/
structure RssItem where
  title : String
  description : String
  pubDate : String
  link : String
  enclosure : Enclosure
deriving DecidableEq, Repr

/-- The `channel` element: metadata plus the item list, in creation order. -/
structure RssChannel where
  title : String
  link : String
  description : String
  items : List RssItem
deriving DecidableEq, Repr

/-- The channel title string: base, then `' [Mirror]'` when `use_mirror`, then
`' (Including Pre-releases)'` when `include_prerelease`, in that order. -/
def feedTitle (include_prerelease use_mirror : Bool) : String :=
  let t := "PeerBanHelper Releases"
  let t := if use_mirror then t ++ " [Mirror]" else t
  if include_prerelease then t ++ " (Including Pre-releases)" else t

/-- The fixed channel `link` constant. -/
def channelLink : String :=
  "https://github.com/PBH-BTN/PeerBanHelper/releases"

/-- One iteration of the item loop of `generate_rss_feed` for a non-skipped
entry: `.error` models the `ValueError` raised by `strptime` on an unparseable
`pub_date` (which aborts the whole render; the partially built XML tree is
discarded because the exception propagates before serialization). -/
def buildItem (use_mirror : Bool) (e : NormalizedEntry) : Except String RssItem :=
  match parseIsoZ e.pub_date with
  | none => .error "ValueError: time data does not match format"
  | some dt =>
    .ok {
      title := saxEscape e.title,
      description := saxEscape e.description,
      pubDate := formatRfc822 dt,
      link := e.html_url,
      enclosure := {
        url := if use_mirror then e.mirror_url else e.torrent_url,
        length := Nat.repr e.size,
        mimeType := "application/x-bittorrent" } }

/-- Total companion of `buildItem`, equal to it whenever the date parses
(`buildItem_ok_of_parse`). -/
def buildItemP (use_mirror : Bool) (e : NormalizedEntry) : RssItem :=
  { title := saxEscape e.title,
    description := saxEscape e.description,
    pubDate := match parseIsoZ e.pub_date with
      | some dt => formatRfc822 dt
      | none => "",
    link := e.html_url,
    enclosure := {
      url := if use_mirror then e.mirror_url else e.torrent_url,
      length := Nat.repr e.size,
      mimeType := "application/x-bittorrent" } }

/-- The `for entry in entries` loop of `generate_rss_feed`: skip the entry when
`not include_prerelease and entry['is_prerelease']`, otherwise build its item;
a raised exception aborts the loop. -/
def buildItems (use_mirror include_prerelease : Bool) :
    List NormalizedEntry → Except String (List RssItem)
  | [] => .ok []
  | e :: rest =>
    if !include_prerelease && e.is_prerelease then
      buildItems use_mirror include_prerelease rest
    else
      match buildItem use_mirror e with
      | .error err => .error err
      | .ok it =>
        match buildItems use_mirror include_prerelease rest with
        | .error err => .error err
        | .ok its => .ok (it :: its)

/-- `generate_rss_feed(entries, include_prerelease, use_mirror)`, returning the
structured document (channel metadata and items); `.error` models a raised
exception. -/
def generate_rss_feed (entries : List NormalizedEntry)
    (include_prerelease use_mirror : Bool) : Except String RssChannel :=
  match buildItems use_mirror include_prerelease entries with
  | .error err => .error err
  | .ok its =>
    .ok { title := feedTitle include_prerelease use_mirror,
          link := channelLink,
          description := feedTitle include_prerelease use_mirror,
          items := its }

/-- Character data an item's `title` element contributes to the final
serialized XML document.  The source serializes with
`tostring` (escapes the stored `.text` once), re-parses with
`minidom.parseString` (which undoes that escape), and writes with
`toprettyxml` (escaping once again via `_write_data`); the net effect on the
stored `.text` value is one `minidom` escape. -/
def serializedTitleContent (it : RssItem) : String :=
  minidomWriteData it.title

/-- Character data an item's `description` element contributes to the final
serialized XML document; same serialization chain as `serializedTitleContent`. -/
def serializedDescriptionContent (it : RssItem) : String :=
  minidomWriteData it.description

/-- Decidable equality for `Except`, for evaluating the embedding on concrete
inputs. -/
instance {ε α : Type} [DecidableEq ε] [DecidableEq α] : DecidableEq (Except ε α) := fun a b =>
  match a, b with
  | .ok x, .ok y => if h : x = y then .isTrue (by simp [h]) else .isFalse (by simp [h])
  | .error x, .error y => if h : x = y then .isTrue (by simp [h]) else .isFalse (by simp [h])
  | .ok _, .error _ => .isFalse (by simp)
  | .error _, .ok _ => .isFalse (by simp)

/-- Explicit-store rendering of the item loop of `generate_rss_feed`, for the
frame property: the store `σ` is the caller's `entries` list, each iteration
reads `entries[i]` from the current store, and every branch passes on the
store it received — translated statement-by-statement, the loop body contains
reads of `entry` fields and `SubElement` calls on the (local) XML tree, but no
assignment to `entries` or to any entry. -/
def genItemsLoop (include_prerelease use_mirror : Bool)
    (σ : List NormalizedEntry) : List Nat → Except String (List RssItem) × List NormalizedEntry
  | [] => (.ok [], σ)
  | i :: rest =>
    match σ[i]? with
    | none => (.error "IndexError", σ)
    | some e =>
      if !include_prerelease && e.is_prerelease then
        genItemsLoop include_prerelease use_mirror σ rest
      else
        match buildItem use_mirror e with
        | .error err => (.error err, σ)
        | .ok it =>
          match genItemsLoop include_prerelease use_mirror σ rest with
          | (.error err, σ2) => (.error err, σ2)
          | (.ok its, σ2) => (.ok (it :: its), σ2)

/-- `generate_rss_feed` in the explicit-store model: runs the item loop over
the positions of the entries store, then assembles the channel; returns the
result together with the store left behind. -/
def generate_rss_feed_run (entries : List NormalizedEntry)
    (include_prerelease use_mirror : Bool) : Except String RssChannel × List NormalizedEntry :=
  match genItemsLoop include_prerelease use_mirror entries (List.range entries.length) with
  | (.error err, σ2) => (.error err, σ2)
  | (.ok its, σ2) =>
    (.ok { title := feedTitle include_prerelease use_mirror,
           link := channelLink,
           description := feedTitle include_prerelease use_mirror,
           items := its }, σ2)

/-- A markdown collaborator that succeeds, echoing its input (concrete stand-in
for `markdown.markdown` in witnesses). -/
def renderId : String → Except String String := fun s => .ok s

/-- A markdown collaborator whose conversion raises. -/
def renderFail : String → Except String String := fun _ => .error "markdown failure"

/-- The spec's §8 scenario record: `v1`, one torrent asset of size 1000. -/
def rGood : RawRelease :=
  { name := some "Version 1", tag_name := some "v1", body := none,
    published_at := some "2024-01-01T00:00:00Z", prerelease := false, draft := false,
    html_url := some "https://x/1",
    assets := some [{ name := "peerbanhelper.torrent", size := 1000 }] }

/-- The entry `process_releases` builds from `rGood`. -/
def eGood : NormalizedEntry :=
  { title := "Version 1", description := "", pub_date := "2024-01-01T00:00:00Z",
    is_prerelease := false, html_url := "https://x/1", size := 1000,
    torrent_url := "https://github.com/PBH-BTN/PeerBanHelper/releases/download/v1/peerbanhelper.torrent",
    mirror_url := "https://ghfast.top/https://github.com/PBH-BTN/PeerBanHelper/releases/download/v1/peerbanhelper.torrent" }

/-- A record whose dict has no `assets` key: `release['assets']` raises. -/
def rNoAssets : RawRelease :=
  { name := none, tag_name := some "v0", body := none,
    published_at := some "2024-01-01T00:00:00Z", prerelease := false, draft := false,
    html_url := none, assets := none }

/-- A draft record (otherwise well-formed). -/
def rDraft : RawRelease :=
  { rGood with draft := true, tag_name := some "vdraft" }

/-- A record whose `name` key is present but holds the empty string. -/
def rEmptyName : RawRelease :=
  { rGood with
    name := some "" }

/-- Witness record `A`: newest date, shared with `rC` (tie). -/
def rA : RawRelease :=
  { rGood with
    name := some "A", tag_name := some "a",
    published_at := some "2024-01-02T00:00:00Z" }

/-- Witness record `B`: the oldest date. -/
def rB : RawRelease :=
  { rGood with
    name := some "B", tag_name := some "b",
    published_at := some "2024-01-01T00:00:00Z" }

/-- Witness record `C`: same date as `rA`, later in the input. -/
def rC : RawRelease :=
  { rGood with
    name := some "C", tag_name := some "c",
    published_at := some "2024-01-02T00:00:00Z" }

/-- The entry built from `rA`. -/
def eA : NormalizedEntry :=
  { eGood with
    title := "A", pub_date := "2024-01-02T00:00:00Z",
    torrent_url := "https://github.com/PBH-BTN/PeerBanHelper/releases/download/a/peerbanhelper.torrent",
    mirror_url := "https://ghfast.top/https://github.com/PBH-BTN/PeerBanHelper/releases/download/a/peerbanhelper.torrent" }

/-- The entry built from `rB`. -/
def eB : NormalizedEntry :=
  { eGood with
    title := "B", pub_date := "2024-01-01T00:00:00Z",
    torrent_url := "https://github.com/PBH-BTN/PeerBanHelper/releases/download/b/peerbanhelper.torrent",
    mirror_url := "https://ghfast.top/https://github.com/PBH-BTN/PeerBanHelper/releases/download/b/peerbanhelper.torrent" }

/-- The entry built from `rC`. -/
def eC : NormalizedEntry :=
  { eGood with
    title := "C", pub_date := "2024-01-02T00:00:00Z",
    torrent_url := "https://github.com/PBH-BTN/PeerBanHelper/releases/download/c/peerbanhelper.torrent",
    mirror_url := "https://ghfast.top/https://github.com/PBH-BTN/PeerBanHelper/releases/download/c/peerbanhelper.torrent" }

/-- A pre-release entry for renderer witnesses. -/
def ePre : NormalizedEntry :=
  { eGood with
    title := "Pre", is_prerelease := true,
    pub_date := "2024-02-01T00:00:00Z" }

/-- An entry whose title and description contain XML-special characters. -/
def eMarkup : NormalizedEntry :=
  { eGood with
    title := "a<b", description := "<p>x</p>",
    pub_date := "2024-03-15T10:00:00Z" }

/-- A record that survives the loop but whose `published_at` is not ISO-8601. -/
def rBadDate : RawRelease :=
  { rGood with
    name := some "Bad", tag_name := some "vbad", published_at := some "not-a-date" }

/-- The entry built from `rBadDate` (its `pub_date` does not parse). -/
def eBadDate : NormalizedEntry :=
  { eGood with
    title := "Bad", pub_date := "not-a-date",
    torrent_url := "https://github.com/PBH-BTN/PeerBanHelper/releases/download/vbad/peerbanhelper.torrent",
    mirror_url := "https://ghfast.top/https://github.com/PBH-BTN/PeerBanHelper/releases/download/vbad/peerbanhelper.torrent" }

/-- A record whose `assets` array exists but has no `peerbanhelper.torrent`. -/
def rNoTorrent : RawRelease :=
  { rGood with
    name := some "NT", tag_name := some "vnt",
    assets := some [{ name := "other.zip", size := 5 }] }

/-- The entry list a `process_releases` result carries (empty when the call
raised), for stating membership properties of the loader's output. -/
def okList (x : Except String (List NormalizedEntry)) : List NormalizedEntry :=
  match x with
  | .ok l => l
  | .error _ => []

lemma mem_insertDesc {a x : NormalizedEntry} {l : List NormalizedEntry} :
    a ∈ insertDesc x l ↔ a = x ∨ a ∈ l := by
  induction l with
  | nil => simp [insertDesc]
  | cons b bs ih =>
    by_cases h : keyD b ≤ keyD x
    · simp [insertDesc, h]
    · simp only [insertDesc, if_neg h, List.mem_cons, ih]
      tauto

lemma pairwise_insertDesc {x : NormalizedEntry} {l : List NormalizedEntry}
    (h : l.Pairwise (fun a b => keyD b ≤ keyD a)) :
    (insertDesc x l).Pairwise (fun a b => keyD b ≤ keyD a) := by
  induction l with
  | nil => simp [insertDesc]
  | cons b bs ih =>
    rcases List.pairwise_cons.mp h with ⟨hb, hbs⟩
    by_cases hc : keyD b ≤ keyD x
    · rw [insertDesc, if_pos hc]
      refine List.pairwise_cons.mpr ⟨?_, h⟩
      intro a ha
      rcases List.mem_cons.mp ha with rfl | ha
      · exact hc
      · exact le_trans (hb a ha) hc
    · rw [insertDesc, if_neg hc]
      refine List.pairwise_cons.mpr ⟨?_, ih hbs⟩
      intro a ha
      rcases mem_insertDesc.mp ha with rfl | ha
      · exact le_of_not_le hc
      · exact hb a ha

lemma pairwise_sortDesc (l : List NormalizedEntry) :
    (sortDesc l).Pairwise (fun a b => keyD b ≤ keyD a) := by
  induction l with
  | nil => simp [sortDesc]
  | cons a l ih => exact pairwise_insertDesc ih

lemma mem_sortDesc {a : NormalizedEntry} {l : List NormalizedEntry} :
    a ∈ sortDesc l ↔ a ∈ l := by
  induction l with
  | nil => simp [sortDesc]
  | cons b bs ih => simp [sortDesc, mem_insertDesc, ih]

lemma filter_insertDesc (x : NormalizedEntry) (l : List NormalizedEntry) (k : Nat) :
    (insertDesc x l).filter (fun e => keyD e == k)
      = if keyD x = k then x :: l.filter (fun e => keyD e == k)
        else l.filter (fun e => keyD e == k) := by
  induction l with
  | nil => simp [insertDesc, List.filter_cons]
  | cons b bs ih =>
    by_cases hc : keyD b ≤ keyD x
    · rw [insertDesc, if_pos hc]
      by_cases hx : keyD x = k <;> simp [List.filter_cons, hx]
    · rw [insertDesc, if_neg hc]
      by_cases hx : keyD x = k
      · have hbk : ¬ (keyD b = k) := by omega
        simp [List.filter_cons, hx, hbk, ih]
      · by_cases hbk : keyD b = k <;> simp [List.filter_cons, hx, hbk, ih]

lemma filter_sortDesc (l : List NormalizedEntry) (k : Nat) :
    (sortDesc l).filter (fun e => keyD e == k) = l.filter (fun e => keyD e == k) := by
  induction l with
  | nil => rfl
  | cons b bs ih =>
    rw [sortDesc, filter_insertDesc]
    by_cases hb : keyD b = k <;> simp [List.filter_cons, hb, ih]

lemma processLoop_skip (render : String → Except String String)
    (pre post : List RawRelease) (r : RawRelease)
    (h : processOne render r = .ok none) :
    processLoop render (pre ++ r :: post) = processLoop render (pre ++ post) := by
  induction pre with
  | nil => simp [processLoop, h]
  | cons a pre ih =>
    simp only [List.cons_append, processLoop, List.append_eq]
    rw [ih]

lemma processLoop_mem {render : String → Except String String} {rs : List RawRelease}
    {built : List NormalizedEntry} (h : processLoop render rs = .ok built)
    {e : NormalizedEntry} (he : e ∈ built) :
    ∃ r ∈ rs, processOne render r = .ok (some e) := by
  induction rs generalizing built with
  | nil =>
    simp only [processLoop, Except.ok.injEq] at h
    subst h
    simp at he
  | cons a rest ih =>
    rw [processLoop] at h
    cases ha : processOne render a with
    | error err => rw [ha] at h; exact absurd h (by simp)
    | ok e? =>
      rw [ha] at h
      cases e? with
      | none =>
        rcases ih h he with ⟨r, hr, hpr⟩
        exact ⟨r, List.mem_cons_of_mem a hr, hpr⟩
      | some e0 =>
        cases hrest : processLoop render rest with
        | error err => rw [hrest] at h; exact absurd h (by simp)
        | ok es =>
          rw [hrest] at h
          simp only [Except.ok.injEq] at h
          subst h
          rcases List.mem_cons.mp he with rfl | he'
          · exact ⟨a, List.mem_cons_self a rest, ha⟩
          · rcases ih hrest he' with ⟨r, hr, hpr⟩
            exact ⟨r, List.mem_cons_of_mem a hr, hpr⟩

lemma buildItem_ok_of_parse {m : Bool} {e : NormalizedEntry}
    (h : (parseIsoZ e.pub_date).isSome = true) :
    buildItem m e = .ok (buildItemP m e) := by
  rcases hp : parseIsoZ e.pub_date with _ | dt
  · rw [hp] at h; simp at h
  · simp [buildItem, buildItemP, hp]

lemma buildItems_eq_map {m p : Bool} {es : List NormalizedEntry}
    (h : ∀ e ∈ es, (p || !e.is_prerelease) = true → (parseIsoZ e.pub_date).isSome = true) :
    buildItems m p es
      = .ok ((es.filter (fun e => p || !e.is_prerelease)).map (buildItemP m)) := by
  induction es with
  | nil => rfl
  | cons e rest ih =>
    rw [buildItems]
    by_cases hskip : (!p && e.is_prerelease) = true
    · have hpred : (p || !e.is_prerelease) = false := by
        cases p <;> cases h2 : e.is_prerelease <;> simp_all
      rw [if_pos hskip, ih (fun x hx => h x (List.mem_cons_of_mem _ hx))]
      simp [List.filter_cons, hpred]
    · have hpred : (p || !e.is_prerelease) = true := by
        cases p <;> cases h2 : e.is_prerelease <;> simp_all
      rw [if_neg hskip, buildItem_ok_of_parse (h e (List.mem_cons_self _ _) hpred),
        ih (fun x hx => h x (List.mem_cons_of_mem _ hx))]
      simp [List.filter_cons, hpred]

lemma buildItems_ok_mem {m p : Bool} {es : List NormalizedEntry} {its : List RssItem}
    (h : buildItems m p es = .ok its) {it : RssItem} (hit : it ∈ its) :
    ∃ e ∈ es, buildItem m e = .ok it := by
  induction es generalizing its with
  | nil =>
    simp only [buildItems, Except.ok.injEq] at h
    subst h
    simp at hit
  | cons e rest ih =>
    rw [buildItems] at h
    by_cases hskip : (!p && e.is_prerelease) = true
    · rw [if_pos hskip] at h
      rcases ih h hit with ⟨x, hx, hb⟩
      exact ⟨x, List.mem_cons_of_mem _ hx, hb⟩
    · rw [if_neg hskip] at h
      cases hb : buildItem m e with
      | error err => rw [hb] at h; exact absurd h (by simp)
      | ok it0 =>
        rw [hb] at h
        cases hrest : buildItems m p rest with
        | error err => rw [hrest] at h; exact absurd h (by simp)
        | ok its0 =>
          rw [hrest] at h
          simp only [Except.ok.injEq] at h
          subst h
          rcases List.mem_cons.mp hit with rfl | hit'
          · exact ⟨e, List.mem_cons_self _ _, hb⟩
          · rcases ih hrest hit' with ⟨x, hx, hb2⟩
            exact ⟨x, List.mem_cons_of_mem _ hx, hb2⟩

lemma genItemsLoop_snd (p m : Bool) (σ : List NormalizedEntry) (is : List Nat) :
    (genItemsLoop p m σ is).2 = σ := by
  induction is with
  | nil => rfl
  | cons i rest ih =>
    rw [genItemsLoop]
    cases hσ : σ[i]? with
    | none => rfl
    | some e =>
      dsimp only
      by_cases hskip : (!p && e.is_prerelease) = true
      · rw [if_pos hskip]; exact ih
      · rw [if_neg hskip]
        cases hb : buildItem m e with
        | error err => rfl
        | ok it =>
          rcases hrec : genItemsLoop p m σ rest with ⟨r1, σ2⟩
          have h2 : σ2 = σ := by rw [hrec] at ih; exact ih
          cases r1 <;> simp [h2]

lemma genItemsLoop_fst_aux (p m : Bool) (σ : List NormalizedEntry) :
    ∀ n k, σ.length - k = n →
      (genItemsLoop p m σ (List.range' k n)).1 = buildItems m p (σ.drop k) := by
  intro n
  induction n with
  | zero =>
    intro k hk
    rw [List.drop_eq_nil_of_le (Nat.le_of_sub_eq_zero hk)]
    rfl
  | succ n ih =>
    intro k hk
    have hklt : k < σ.length := by omega
    rw [show List.range' k (n + 1) = k :: List.range' (k + 1) n from rfl, genItemsLoop,
      List.drop_eq_getElem_cons hklt, buildItems]
    simp only [List.getElem?_eq_getElem hklt]
    by_cases hskip : (!p && (σ[k]).is_prerelease) = true
    · rw [if_pos hskip, if_pos hskip]
      exact ih (k + 1) (by omega)
    · rw [if_neg hskip, if_neg hskip]
      cases hb : buildItem m σ[k] with
      | error err => rfl
      | ok it =>
        rcases hrec : genItemsLoop p m σ (List.range' (k + 1) n) with ⟨r1, σ2⟩
        have ihk := ih (k + 1) (by omega)
        rw [hrec] at ihk
        rw [← ihk]
        cases r1 <;> rfl

/-- C1 counterexample: a record with a missing required field (`assets`) does
not get excluded by itself — `process_releases` raises `KeyError` at that
record, so the well-formed following record `rGood` is not returned and the
run is aborted, contrary to the claim. -/
theorem process_releases_missing_assets_aborts :
    process_releases renderId [rNoAssets, rGood] 50 = Except.error "KeyError: assets" := by
  decide

/-- C1 (amended): records that are drafts or merely lack the required torrent
asset are excluded one at a time and processing continues with the rest; but a
surviving record whose dict is missing the required `assets` field raises
`KeyError`, and an unparseable `pub_date` among the built entries makes the
final sort raise `ValueError` — either defect aborts the entire load (no
partial result is returned) instead of excluding only that record. -/
theorem process_releases_skip_and_abort :
    (∀ (render : String → Except String String) (n : Nat) (pre post : List RawRelease)
        (r : RawRelease), r.draft = true →
      process_releases render (pre ++ r :: post) n = process_releases render (pre ++ post) n)
    ∧ (∀ (render : String → Except String String) (n : Nat) (pre post : List RawRelease)
        (r : RawRelease) (as : List Asset),
        r.draft = false → r.assets = some as → findTorrentAsset as = none →
        process_releases render (pre ++ r :: post) n = process_releases render (pre ++ post) n)
    ∧ (∀ (render : String → Except String String) (n : Nat) (post : List RawRelease)
        (r : RawRelease), r.draft = false → r.assets = none →
        (process_releases render (r :: post) n).isOk = false)
    ∧ (∀ (render : String → Except String String) (n : Nat) (rs : List RawRelease)
        (built : List NormalizedEntry), processLoop render rs = .ok built →
        (∃ e ∈ built, parseIsoZ e.pub_date = none) →
        (process_releases render rs n).isOk = false) := by
  refine ⟨?_, ?_, ?_, ?_⟩
  · intro render n pre post r hd
    have h : processOne render r = .ok none := by simp [processOne, hd]
    unfold process_releases
    rw [processLoop_skip render pre post r h]
  · intro render n pre post r as hd has hfind
    have h : processOne render r = .ok none := by simp [processOne, hd, has, hfind]
    unfold process_releases
    rw [processLoop_skip render pre post r h]
  · intro render n post r hd has
    have h : processOne render r = .error "KeyError: assets" := by
      simp [processOne, hd, has]
    unfold process_releases
    rw [processLoop, h]
    rfl
  · intro render n rs built hloop he
    rcases he with ⟨e, he, hpe⟩
    unfold process_releases
    rw [hloop]
    have hn : ¬ (built.all (fun e => (parseIsoZ e.pub_date).isSome) = true) := by
      intro hall
      have := List.all_eq_true.mp hall e he
      rw [hpe] at this
      simp at this
    dsimp only
    rw [if_neg hn]
    rfl

/-- C1 witness: the four amended behaviors at concrete inputs — a draft record
and a record whose assets lack the torrent are skipped without affecting the
rest, a record missing `assets` aborts, and an unparseable date aborts. -/
theorem process_releases_skip_and_abort_witness :
    (process_releases renderId ([] ++ rDraft :: [rGood]) 50
       = process_releases renderId ([] ++ [rGood]) 50)
    ∧ (process_releases renderId ([] ++ rNoTorrent :: [rGood]) 50
       = process_releases renderId ([] ++ [rGood]) 50)
    ∧ ((process_releases renderId (rNoAssets :: [rGood]) 50).isOk = false)
    ∧ ((process_releases renderId [rBadDate] 50).isOk = false) :=
  ⟨process_releases_skip_and_abort.1 renderId 50 [] [rGood] rDraft (by decide),
   process_releases_skip_and_abort.2.1 renderId 50 [] [rGood] rNoTorrent
     [⟨"other.zip", 5⟩] (by decide) (by decide) (by decide),
   process_releases_skip_and_abort.2.2.1 renderId 50 [rGood] rNoAssets
     (by decide) (by decide),
   process_releases_skip_and_abort.2.2.2 renderId 50 [rBadDate] [eBadDate] (by decide)
     ⟨eBadDate, by decide, by decide⟩⟩

/-- C2 counterexample: for a record whose `name` key is present but holds the
empty string (`rEmptyName`, tag `v1`), the produced entry's title is `""`,
not the `tag_name` fallback `"v1"` the claim requires whenever `name` is
falsy. -/
theorem title_empty_name_counterexample :
    ((okList (process_releases renderId [rEmptyName] 50)).map (fun e => e.title) = [""])
    ∧ ("" : String) ≠ "v1" := by
  exact ⟨by decide, by decide⟩

/-- C2 (amended): the title of a produced entry equals the value stored under
the `name` key whenever that key is present — even when it is the empty
string — and falls back to `tag_name` only when the `name` key is absent:
`release.get('name', release['tag_name'])` substitutes the default only for a
missing key, not for a falsy value. -/
theorem title_fallback_only_when_name_absent
    (render : String → Except String String) (r : RawRelease) (e : NormalizedEntry)
    (h : processOne render r = .ok (some e)) :
    ∃ tag, r.tag_name = some tag ∧ e.title = r.name.getD tag
      ∧ (∀ s, r.name = some s → e.title = s)
      ∧ (r.name = none → e.title = tag) := by
  unfold processOne at h
  by_cases hd : r.draft
  · rw [if_pos hd] at h
    exact absurd h (by simp)
  · rw [if_neg hd] at h
    cases has : r.assets with
    | none => rw [has] at h; exact absurd h (by simp)
    | some assets =>
      rw [has] at h
      dsimp only at h
      cases hf : findTorrentAsset assets with
      | none => rw [hf] at h; exact absurd h (by simp)
      | some a =>
        rw [hf] at h
        dsimp only at h
        cases ht : r.tag_name with
        | none => rw [ht] at h; exact absurd h (by simp)
        | some tag =>
          rw [ht] at h
          dsimp only at h
          simp only [Except.ok.injEq, Option.some.injEq] at h
          subst h
          refine ⟨tag, rfl, rfl, ?_, ?_⟩
          · intro s hs
            simp [hs]
          · intro hs
            simp [hs]

/-- C2 witness: the amended fallback at the concrete record `rGood`
(name `"Version 1"` present, tag `v1`), whose entry is `eGood`. -/
theorem title_fallback_witness :
    ∃ tag, rGood.tag_name = some tag ∧ eGood.title = rGood.name.getD tag
      ∧ (∀ s, rGood.name = some s → eGood.title = s)
      ∧ (rGood.name = none → eGood.title = tag) :=
  title_fallback_only_when_name_absent renderId rGood eGood (by decide)

/-- C3 (code bug): in the serialized feed the item contents are escaped twice,
not once.  For `eMarkup` (title `a<b`, description `<p>x</p>`), the title
element's serialized character data is `a&amp;lt;b` — `escape(entry['title'])`
stored as `.text` and then escaped again by the serializer — whereas the
claimed single text-escape is `a&lt;b`; likewise for the description. -/
theorem serialized_item_double_escaped :
    ((generate_rss_feed [eMarkup] true false).map
        (fun ch => ch.items.map serializedTitleContent) = .ok ["a&amp;lt;b"])
    ∧ saxEscape eMarkup.title = "a&lt;b"
    ∧ ((generate_rss_feed [eMarkup] true false).map
        (fun ch => ch.items.map serializedDescriptionContent)
          = .ok ["&amp;lt;p&amp;gt;x&amp;lt;/p&amp;gt;"])
    ∧ saxEscape eMarkup.description = "&lt;p&gt;x&lt;/p&gt;" := by
  exact ⟨by decide, by decide, by decide, by decide⟩

/-- C8: the renderer's date reformatting (strptime `%Y-%m-%dT%H:%M:%SZ`
followed by strftime `%a, %d %b %Y %H:%M:%S GMT`) maps the pub_date
`2024-03-15T10:00:00Z` of `eMarkup` to exactly
`Fri, 15 Mar 2024 10:00:00 GMT`. -/
theorem pubdate_rfc822_roundtrip :
    (buildItem false eMarkup).map (fun it => it.pubDate)
      = .ok "Fri, 15 Mar 2024 10:00:00 GMT" := by
  decide

/-- C9 counterexample: with a failing markdown collaborator, the input
`"a  \nb"` (which contains the GitHub two-space line break) yields
`escape("a<br/>\nb") = "a&lt;br/&gt;\nb"`, not the HTML-escaped original
input `escape("a  \nb") = "a  \nb"` the claim requires. -/
theorem markdown_failure_counterexample :
    convert_markdown_to_html renderFail "a  \nb" ≠ saxEscape "a  \nb" := by
  decide

/-- C9 (amended): when the markdown conversion raises, the function returns
the HTML-escaped *preprocessed* text — the original with every `'  \n'`
already replaced by `'<br/>\n'` — rather than propagating the failure; this
equals the escaped original exactly when the input has no two-space line
break. -/
theorem markdown_failure_returns_escaped_preprocessed
    (render : String → Except String String) (text : String)
    (h : (render (pyReplace text "  \n" "<br/>\n")).isOk = false) :
    convert_markdown_to_html render text
      = saxEscape (pyReplace text "  \n" "<br/>\n") := by
  unfold convert_markdown_to_html
  by_cases ht : text = ""
  · rw [if_pos ht, ht]
    decide
  · rw [if_neg ht]
    dsimp only
    cases hr : render (pyReplace text "  \n" "<br/>\n") with
    | ok html =>
      rw [hr] at h
      exact absurd h (by simp [Except.isOk, Except.toBool])
    | error err =>
      rfl

/-- C9 witness: the amended fallback at the concrete input `"a  \nb"` with the
failing collaborator `renderFail`. -/
theorem markdown_failure_witness :
    ((renderFail (pyReplace "a  \nb" "  \n" "<br/>\n")).isOk = false)
    ∧ convert_markdown_to_html renderFail "a  \nb"
        = saxEscape (pyReplace "a  \nb" "  \n" "<br/>\n") :=
  ⟨by decide, markdown_failure_returns_escaped_preprocessed renderFail "a  \nb" (by decide)⟩

/-- C4: whenever the loader returns a sequence (which requires every built
entry's `pub_date` to parse), that sequence is sorted by parsed `pub_date` in
non-increasing key order, has length at most `max_entries`, equals the stable
descending sort of the built list truncated to `max_entries` — filtering the
sorted list to any single key value returns exactly the input-order
sublist, so ties retain their relative input order — and every discarded
element's key is at most every returned element's key (the discarded entries
are the oldest). -/
theorem process_releases_sorted_stable_truncated
    (render : String → Except String String) (rs : List RawRelease) (n : Nat)
    (es : List NormalizedEntry) (h : process_releases render rs n = .ok es) :
    es.Pairwise (fun a b => keyD b ≤ keyD a)
    ∧ es.length ≤ n
    ∧ ∃ built, processLoop render rs = .ok built
        ∧ es = (sortDesc built).take n
        ∧ (∀ k, (sortDesc built).filter (fun e => keyD e == k)
            = built.filter (fun e => keyD e == k))
        ∧ (∀ e ∈ es, ∀ d ∈ (sortDesc built).drop n, keyD d ≤ keyD e) := by
  unfold process_releases at h
  cases hloop : processLoop render rs with
  | error err => rw [hloop] at h; exact absurd h (by simp)
  | ok built =>
    rw [hloop] at h
    dsimp only at h
    by_cases hall : (built.all (fun e => (parseIsoZ e.pub_date).isSome)) = true
    · rw [if_pos hall] at h
      simp only [Except.ok.injEq] at h
      subst h
      refine ⟨?_, ?_, built, rfl, rfl, filter_sortDesc built, ?_⟩
      · exact List.Pairwise.sublist (List.take_sublist n (sortDesc built))
          (pairwise_sortDesc built)
      · rw [List.length_take]
        exact inf_le_left
      · intro e he d hd
        have hp := pairwise_sortDesc built
        rw [← List.take_append_drop n (sortDesc built)] at hp
        exact (List.pairwise_append.mp hp).2.2 e he d hd
    · rw [if_neg hall] at h
      exact absurd h (by simp)

/-- C4 witness: concrete run with three records — `rA` and `rC` share the
newest date (`rA` first in input), `rB` is older — and cap 2: the result is
`[eA, eC]` (ties in input order, the oldest entry `eB` discarded). -/
theorem process_releases_sorted_stable_truncated_witness :
    ([eA, eC] : List NormalizedEntry).Pairwise (fun a b => keyD b ≤ keyD a)
    ∧ ([eA, eC] : List NormalizedEntry).length ≤ 2
    ∧ ∃ built, processLoop renderId [rA, rB, rC] = .ok built
        ∧ [eA, eC] = (sortDesc built).take 2
        ∧ (∀ k, (sortDesc built).filter (fun e => keyD e == k)
            = built.filter (fun e => keyD e == k))
        ∧ (∀ e ∈ ([eA, eC] : List NormalizedEntry),
            ∀ d ∈ (sortDesc built).drop 2, keyD d ≤ keyD e) :=
  process_releases_sorted_stable_truncated renderId [rA, rB, rC] 2 [eA, eC] (by decide)

/-- C5: a record yields an entry only if its draft flag is false and its
assets contain an asset named exactly `peerbanhelper.torrent` (the first such
asset's size populates the entry's `size`); a draft record or a record whose
assets lack the torrent contributes nothing to the loop; and every entry of
the loader's output arises from some qualifying input record — so such
records never appear in any output feed. -/
theorem entry_requires_nondraft_and_asset :
    (∀ (render : String → Except String String) (r : RawRelease) (e : NormalizedEntry),
        processOne render r = .ok (some e) →
        r.draft = false ∧ ∃ as, r.assets = some as
          ∧ ∃ a, findTorrentAsset as = some a ∧ a.name = "peerbanhelper.torrent"
          ∧ e.size = a.size)
    ∧ (∀ (render : String → Except String String) (r : RawRelease), r.draft = true →
        processOne render r = .ok none)
    ∧ (∀ (render : String → Except String String) (r : RawRelease) (as : List Asset),
        r.draft = false → r.assets = some as → findTorrentAsset as = none →
        processOne render r = .ok none)
    ∧ (∀ (render : String → Except String String) (rs : List RawRelease) (n : Nat)
        (e : NormalizedEntry), e ∈ okList (process_releases render rs n) →
        ∃ r ∈ rs, processOne render r = .ok (some e)) := by
  refine ⟨?_, ?_, ?_, ?_⟩
  · intro render r e h
    unfold processOne at h
    by_cases hd : r.draft
    · rw [if_pos hd] at h
      exact absurd h (by simp)
    · rw [if_neg hd] at h
      cases has : r.assets with
      | none => rw [has] at h; exact absurd h (by simp)
      | some assets =>
        rw [has] at h
        dsimp only at h
        cases hf : findTorrentAsset assets with
        | none => rw [hf] at h; exact absurd h (by simp)
        | some a =>
          rw [hf] at h
          dsimp only at h
          cases ht : r.tag_name with
          | none => rw [ht] at h; exact absurd h (by simp)
          | some tag =>
            rw [ht] at h
            dsimp only at h
            simp only [Except.ok.injEq, Option.some.injEq] at h
            subst h
            refine ⟨by simpa using hd, assets, rfl, a, hf, ?_, rfl⟩
            have := List.find?_some hf
            exact eq_of_beq this
  · intro render r hd
    simp [processOne, hd]
  · intro render r as hd has hfind
    simp [processOne, hd, has, hfind]
  · intro render rs n e he
    cases hp : process_releases render rs n with
    | error err =>
      rw [hp] at he
      simp [okList] at he
    | ok es =>
      rw [hp] at he
      simp only [okList] at he
      unfold process_releases at hp
      cases hloop : processLoop render rs with
      | error err => rw [hloop] at hp; exact absurd hp (by simp)
      | ok built =>
        rw [hloop] at hp
        dsimp only at hp
        by_cases hall : (built.all (fun e => (parseIsoZ e.pub_date).isSome)) = true
        · rw [if_pos hall] at hp
          simp only [Except.ok.injEq] at hp
          subst hp
          have h1 : e ∈ sortDesc built :=
            (List.take_sublist n (sortDesc built)).subset he
          exact processLoop_mem hloop (mem_sortDesc.mp h1)
        · rw [if_neg hall] at hp
          exact absurd hp (by simp)

/-- C5 witness: the four conjuncts at concrete records — `rGood` qualifies
and its entry `eGood` takes the asset's size 1000; `rDraft` and `rNoTorrent`
contribute nothing; and `eA` in the output of a concrete run originates from
a qualifying record of the input. -/
theorem entry_requires_nondraft_and_asset_witness :
    (rGood.draft = false ∧ ∃ as, rGood.assets = some as
        ∧ ∃ a, findTorrentAsset as = some a ∧ a.name = "peerbanhelper.torrent"
        ∧ eGood.size = a.size)
    ∧ processOne renderId rDraft = .ok none
    ∧ processOne renderId rNoTorrent = .ok none
    ∧ ∃ r ∈ ([rA, rB, rC] : List RawRelease), processOne renderId r = .ok (some eA) :=
  ⟨entry_requires_nondraft_and_asset.1 renderId rGood eGood (by decide),
   entry_requires_nondraft_and_asset.2.1 renderId rDraft (by decide),
   entry_requires_nondraft_and_asset.2.2.1 renderId rNoTorrent
     [⟨"other.zip", 5⟩] (by decide) (by decide) (by decide),
   entry_requires_nondraft_and_asset.2.2.2 renderId [rA, rB, rC] 2 eA (by decide)⟩

/-- C6: when every admitted entry's `pub_date` parses, the rendered feed is
returned and its items are exactly the item builder mapped over the entries
filtered by `include_prerelease || !is_prerelease`, in input order — an entry
produces an item iff the flag admits it, and the renderer never re-sorts. -/
theorem feed_items_filter_order (es : List NormalizedEntry) (p m : Bool)
    (h : ∀ e ∈ es, (p || !e.is_prerelease) = true → (parseIsoZ e.pub_date).isSome = true) :
    generate_rss_feed es p m
      = .ok { title := feedTitle p m, link := channelLink,
              description := feedTitle p m,
              items := (es.filter (fun e => p || !e.is_prerelease)).map (buildItemP m) } := by
  unfold generate_rss_feed
  rw [buildItems_eq_map h]

/-- C6 witness: rendering `[ePre, eGood]` without pre-releases and without the
mirror keeps exactly the non-prerelease entry, in order. -/
theorem feed_items_filter_order_witness :
    generate_rss_feed [ePre, eGood] false false
      = .ok { title := feedTitle false false, link := channelLink,
              description := feedTitle false false,
              items := (([ePre, eGood] : List NormalizedEntry).filter
                  (fun e => false || !e.is_prerelease)).map (buildItemP false) } :=
  feed_items_filter_order [ePre, eGood] false false (by decide)

/-- C7: every item of a rendered feed carries the enclosure of one of the
input entries — `url` is the entry's `mirror_url` when `use_mirror` is true
and its `torrent_url` otherwise, `length` is the decimal string of the
entry's `size`, and the type is the constant `application/x-bittorrent`; the
loop adds exactly one enclosure per item (the single `enclosure` field). -/
theorem feed_item_enclosure (es : List NormalizedEntry) (p m : Bool)
    (ch : RssChannel) (h : generate_rss_feed es p m = .ok ch)
    (it : RssItem) (hit : it ∈ ch.items) :
    ∃ e ∈ es, it.enclosure
        = { url := if m then e.mirror_url else e.torrent_url,
            length := Nat.repr e.size, mimeType := "application/x-bittorrent" } := by
  unfold generate_rss_feed at h
  cases hb : buildItems m p es with
  | error err => rw [hb] at h; exact absurd h (by simp)
  | ok its =>
    rw [hb] at h
    dsimp only at h
    simp only [Except.ok.injEq] at h
    subst h
    rcases buildItems_ok_mem hb hit with ⟨e, he, hbe⟩
    refine ⟨e, he, ?_⟩
    unfold buildItem at hbe
    cases hp : parseIsoZ e.pub_date with
    | none => rw [hp] at hbe; exact absurd hbe (by simp)
    | some dt =>
      rw [hp] at hbe
      dsimp only at hbe
      simp only [Except.ok.injEq] at hbe
      rw [← hbe]

/-- C7 witness: in the mirror variant over `[eGood]`, the single item's
enclosure uses the mirror URL, the size 1000 as a decimal string, and the
fixed MIME type. -/
theorem feed_item_enclosure_witness :
    ∃ e ∈ ([eGood] : List NormalizedEntry),
      (buildItemP true eGood).enclosure
        = { url := if true then e.mirror_url else e.torrent_url,
            length := Nat.repr e.size, mimeType := "application/x-bittorrent" } :=
  feed_item_enclosure [eGood] true true
    { title := feedTitle true true, link := channelLink,
      description := feedTitle true true, items := [buildItemP true eGood] }
    (by decide) (buildItemP true eGood) (by decide)

/-- C10: the renderer never mutates its entries argument — in the
explicit-store model, `generate_rss_feed_run` returns the store exactly as it
received it, and its result is the pure `generate_rss_feed` of the input, so
the four feed variants are independent pure computations over one immutable
sequence. -/
theorem render_preserves_entries_and_pure (es : List NormalizedEntry) (p m : Bool) :
    (generate_rss_feed_run es p m).2 = es
    ∧ (generate_rss_feed_run es p m).1 = generate_rss_feed es p m := by
  unfold generate_rss_feed_run generate_rss_feed
  rw [List.range_eq_range' es.length]
  rcases hrec : genItemsLoop p m es (List.range' 0 es.length) with ⟨r1, σ2⟩
  have h1 : r1 = buildItems m p es := by
    have hfst := genItemsLoop_fst_aux p m es es.length 0 (by omega)
    rw [hrec, List.drop_zero] at hfst
    exact hfst
  have h2 : σ2 = es := by
    have hsnd := genItemsLoop_snd p m es (List.range' 0 es.length)
    rw [hrec] at hsnd
    exact hsnd
  subst h1
  rw [h2]
  cases buildItems m p es <;> exact ⟨rfl, rfl⟩
